import Mathlib

set_option linter.unusedSectionVars false

/-!
Verification of the SimpleVector dynamic-array container from
src/simple_vector.h.  The container is a template over an element type;
here it is embedded as a structure over an arbitrary type with an
Inhabited instance (the default-constructed value of the element type).

The backing store items_ (an ArrayPtr, the RawBuffer of the design) is
embedded as a plain list whose length is the number of allocated slots.
The helper array_ptr.h is not part of the sources; its behaviour is
modelled from the spec where needed (allocation yields default-valued
slots, move leaves the source empty).

Machine indices and sizes (size_t) are embedded as Nat: every reachable
capacity is bounded by addressable memory, so the doubling arithmetic
never wraps.
-/

/-- One slot-level read, items_[i]: the value at index i of the buffer,
with reads past the allocation resolved to the default value. -/
def readSlot {α : Type} [Inhabited α] (buf : List α) (i : Nat) : α :=
  buf.getD i default

/-- Reading n consecutive slots starting at the front of a buffer, as
std::copy or std::move out of the buffer does. -/
def readSlots {α : Type} [Inhabited α] (buf : List α) (n : Nat) : List α :=
  (List.range n).map (fun i => readSlot buf i)

/-- One slot-level write, items_[i] = x.  A write past the allocation
(undefined behaviour in the source) leaves the buffer unchanged. -/
def writeSlot {α : Type} [Inhabited α] (buf : List α) (i : Nat) (x : α) : List α :=
  (List.range buf.length).map (fun j => if j = i then x else readSlot buf j)

/-- std::fill over slots in the index range a..b (exclusive at b). -/
def fillRange {α : Type} [Inhabited α] (buf : List α) (a b : Nat) (x : α) : List α :=
  (List.range buf.length).map (fun i => if a ≤ i ∧ i < b then x else readSlot buf i)

/-- std::move_backward(items_ + index, items_ + sz, items_ + sz + 1):
slots index+1 .. sz receive the previous values of slots index .. sz-1,
reads happening before the overlapping writes. -/
def shiftRightOne {α : Type} [Inhabited α] (buf : List α) (index sz : Nat) : List α :=
  (List.range buf.length).map
    (fun i => if index < i ∧ i ≤ sz then readSlot buf (i - 1) else readSlot buf i)

/-- std::move(items_ + index + 1, items_ + sz, items_ + index):
slots index .. sz-2 receive the previous values of slots index+1 .. sz-1. -/
def shiftLeftOne {α : Type} [Inhabited α] (buf : List α) (index sz : Nat) : List α :=
  (List.range buf.length).map
    (fun i => if index ≤ i ∧ i + 1 < sz then readSlot buf (i + 1) else readSlot buf i)

/-- Modelled from the spec: array_ptr.h is absent from the sources.  Per
the RawBuffer contract, constructing an ArrayPtr of n elements allocates
n default-valued slots (no allocation when n = 0). -/
def allocSlots (α : Type) [Inhabited α] (n : Nat) : List α :=
  List.replicate n default

/-- The state of a SimpleVector: the backing buffer (its length is the
number of slots actually allocated), the logical size field and the
capacity field. -/
structure SimpleVector (α : Type) where
  items_ : List α
  size_ : Nat
  capacity_ : Nat
deriving DecidableEq

/-- The failure kind raised by checked access. -/
inductive VecError
  | IndexOutOfRange
deriving DecidableEq

namespace SimpleVector

variable {α : Type} [Inhabited α]

/-- The default constructor: size 0, capacity 0, no allocation. -/
def empty : SimpleVector α := ⟨[], 0, 0⟩

/-- SimpleVector(size_t size): allocate size slots, fill them with the
default value; size and capacity are both size. -/
def ofSize (n : Nat) : SimpleVector α :=
  ⟨fillRange (allocSlots α n) 0 n default, n, n⟩

/-- SimpleVector(size_t size, const Type and value): allocate size slots
and fill them with value. -/
def ofSizeValue (n : Nat) (value : α) : SimpleVector α :=
  ⟨fillRange (allocSlots α n) 0 n value, n, n⟩

/-- SimpleVector(std::initializer_list): allocate one slot per element
and copy the elements over in order. -/
def ofList (l : List α) : SimpleVector α :=
  ⟨l, l.length, l.length⟩

/-- The copy constructor: allocate other.size_ slots, copy the live
elements into them; size_ is other.size_ and capacity_ is
other.capacity_ (exactly as the source does it). -/
def copyCtor (other : SimpleVector α) : SimpleVector α :=
  ⟨readSlots other.items_ other.size_, other.size_, other.capacity_⟩

/-- The move constructor: the destination takes the buffer, size and
capacity; the source is left with a null buffer and both fields zeroed
(ArrayPtr move modelled from the spec: the RawBuffer source is left
empty).  Result: (destination, source after the move). -/
def moveCtor (other : SimpleVector α) : SimpleVector α × SimpleVector α :=
  (⟨other.items_, other.size_, other.capacity_⟩, ⟨[], 0, 0⟩)

/-- SimpleVector(ReserveProxyObj): allocate cap slots, size 0,
capacity cap. -/
def reserveCtor (cap : Nat) : SimpleVector α :=
  ⟨allocSlots α cap, 0, cap⟩

def GetSize (v : SimpleVector α) : Nat := v.size_

def GetCapacity (v : SimpleVector α) : Nat := v.capacity_

def IsEmpty (v : SimpleVector α) : Bool := v.size_ == 0

/-- Unchecked access, the subscript operator. -/
def get (v : SimpleVector α) (index : Nat) : α :=
  readSlot v.items_ index

/-- Checked access At(index): fails with IndexOutOfRange when
index >= size_, otherwise returns items_[index].  The mutable and
read-only overloads in the source are textually identical. -/
def At (v : SimpleVector α) (index : Nat) : Except VecError α :=
  if index ≥ v.size_ then Except.error VecError.IndexOutOfRange
  else Except.ok (readSlot v.items_ index)

/-- Clear(): size becomes 0; buffer and capacity untouched. -/
def Clear (v : SimpleVector α) : SimpleVector α :=
  { v with size_ := 0 }

/-- Resize(new_size), the three branches of the source. -/
def Resize (v : SimpleVector α) (new_size : Nat) : SimpleVector α :=
  if new_size < v.size_ then
    { v with size_ := new_size }
  else if new_size ≤ v.capacity_ then
    { v with items_ := fillRange v.items_ v.size_ new_size default,
             size_ := new_size }
  else
    ⟨fillRange (readSlots v.items_ v.size_ ++ allocSlots α (new_size - v.size_))
       v.size_ new_size default,
     new_size, new_size⟩

/-- Reserve(new_capacity): when it exceeds the current capacity,
allocate a fresh buffer of that many slots, move the live elements to
its front and swap it in; otherwise do nothing. -/
def Reserve (v : SimpleVector α) (new_capacity : Nat) : SimpleVector α :=
  if new_capacity > v.capacity_ then
    ⟨readSlots v.items_ v.size_ ++ allocSlots α (new_capacity - v.size_),
     v.size_, new_capacity⟩
  else v

/-- PopBack(): precondition size_ > 0; decrements size only. -/
def PopBack (v : SimpleVector α) : SimpleVector α :=
  { v with size_ := v.size_ - 1 }

/-- PushBack(value): grow to max(capacity_ * 2, 1) when full, then write
value at slot size_ and increment size.  The by-value and by-move
overloads of the source have the same state effect. -/
def PushBack (v : SimpleVector α) (value : α) : SimpleVector α :=
  if v.size_ ≥ v.capacity_ then
    let cap' := max (v.capacity_ * 2) 1
    let new_data := readSlots v.items_ v.size_ ++ allocSlots α (cap' - v.size_)
    ⟨writeSlot new_data v.size_ value, v.size_ + 1, cap'⟩
  else
    ⟨writeSlot v.items_ v.size_ value, v.size_ + 1, v.capacity_⟩

/-- Insert(pos, value) with pos rendered as its index: when full,
Reserve(max(capacity_ * 2, 1)) (which only copies the live prefix);
otherwise shift slots index..size_-1 one place right.  Then write value
at slot index and increment size.  Returns the new state and the index
the returned iterator points at. -/
def Insert (v : SimpleVector α) (index : Nat) (value : α) :
    SimpleVector α × Nat :=
  if v.size_ ≥ v.capacity_ then
    let grown := Reserve v (max (v.capacity_ * 2) 1)
    (⟨writeSlot grown.items_ index value, grown.size_ + 1, grown.capacity_⟩, index)
  else
    (⟨writeSlot (shiftRightOne v.items_ index v.size_) index value,
      v.size_ + 1, v.capacity_⟩, index)

/-- Erase(pos) with pos rendered as its index: shift slots
index+1..size_-1 one place left, decrement size.  Returns the new state
and the index the returned iterator points at. -/
def Erase (v : SimpleVector α) (index : Nat) : SimpleVector α × Nat :=
  (⟨shiftLeftOne v.items_ index v.size_, v.size_ - 1, v.capacity_⟩, index)

/-- swap(other): exchanges buffer, size and capacity. -/
def swap (v w : SimpleVector α) : SimpleVector α × SimpleVector α :=
  (w, v)

/-- Copy assignment: guarded against self-assignment, otherwise builds a
temporary copy of rhs and swaps it into place.  isSelf renders the
address identity test this != addressOf rhs. -/
def opAssign (lhs rhs : SimpleVector α) (isSelf : Bool) : SimpleVector α :=
  if isSelf then lhs else copyCtor rhs

/-- Move assignment: guarded against self-assignment, otherwise the
destination takes buffer, size and capacity of rhs; rhs receives the old
buffer of the destination through the swap, with size and capacity
zeroed.  Result: (destination, rhs after the move). -/
def moveAssign (lhs rhs : SimpleVector α) (isSelf : Bool) :
    SimpleVector α × SimpleVector α :=
  if isSelf then (lhs, rhs)
  else (⟨rhs.items_, rhs.size_, rhs.capacity_⟩, ⟨lhs.items_, 0, 0⟩)

/-- The logical contents: the live elements at indices 0..size_-1. -/
def toList (v : SimpleVector α) : List α :=
  readSlots v.items_ v.size_

/-- operator== : sizes equal and the live ranges pairwise equal
(std::equal walks the lhs range against the start of the rhs buffer). -/
def eqOp [DecidableEq α] (lhs rhs : SimpleVector α) : Bool :=
  lhs.GetSize == rhs.GetSize &&
    decide (readSlots lhs.items_ lhs.GetSize = readSlots rhs.items_ lhs.GetSize)

/-- operator!= : the negation of operator==. -/
def neOp [DecidableEq α] (lhs rhs : SimpleVector α) : Bool :=
  !(eqOp lhs rhs)

/-- std::lexicographical_compare over two element ranges, comparing with
the element operator< in both directions. -/
def lexCompare [LinearOrder α] : List α → List α → Bool
  | _, [] => false
  | [], _ :: _ => true
  | a :: as, b :: bs =>
    if a < b then true else if b < a then false else lexCompare as bs

/-- operator< : lexicographical comparison of the live ranges. -/
def ltOp [LinearOrder α] (lhs rhs : SimpleVector α) : Bool :=
  lexCompare lhs.toList rhs.toList

/-- operator<= : not (rhs < lhs). -/
def leOp [LinearOrder α] (lhs rhs : SimpleVector α) : Bool :=
  !(ltOp rhs lhs)

/-- operator> : rhs < lhs. -/
def gtOp [LinearOrder α] (lhs rhs : SimpleVector α) : Bool :=
  ltOp rhs lhs

/-- operator>= : not (lhs < rhs). -/
def geOp [LinearOrder α] (lhs rhs : SimpleVector α) : Bool :=
  !(ltOp lhs rhs)

/-- The size field never exceeds the capacity field. -/
def SizeLeCap (v : SimpleVector α) : Prop := v.size_ ≤ v.capacity_

/-- The capacity field agrees with the number of allocated slots. -/
def CapMatchesBuf (v : SimpleVector α) : Prop := v.items_.length = v.capacity_

/-- Well-formedness: both invariants together. -/
def WF (v : SimpleVector α) : Prop := SizeLeCap v ∧ CapMatchesBuf v

instance : Decidable (SizeLeCap (α := α) v) := by unfold SizeLeCap; infer_instance
instance : Decidable (CapMatchesBuf (α := α) v) := by unfold CapMatchesBuf; infer_instance
instance : Decidable (WF (α := α) v) := by unfold WF; infer_instance

/-- N successive PushBacks. -/
def pushMany (v : SimpleVector α) (xs : List α) : SimpleVector α :=
  xs.foldl PushBack v

end SimpleVector

/-! Slot-level lemmas about the buffer primitives. -/

section SlotLemmas

variable {α : Type} [Inhabited α]

theorem length_rangeMap (n : Nat) (f : Nat → α) :
    ((List.range n).map f).length = n := by simp

theorem readSlot_rangeMap (f : Nat → α) {n i : Nat} (h : i < n) :
    readSlot ((List.range n).map f) i = f i := by
  simp [readSlot, List.getD_eq_getElem?_getD, List.getElem?_range, h]

theorem readSlot_rangeMap_ge (f : Nat → α) {n i : Nat} (h : n ≤ i) :
    readSlot ((List.range n).map f) i = default := by
  have hlen : ((List.range n).map f).length ≤ i := by simpa using h
  simp [readSlot, List.getD_eq_getElem?_getD, List.getElem?_eq_none hlen]

theorem readSlot_oob {buf : List α} {i : Nat} (h : buf.length ≤ i) :
    readSlot buf i = default := by
  simp [readSlot, List.getD_eq_getElem?_getD, List.getElem?_eq_none h]

theorem readSlot_append_left {xs ys : List α} {i : Nat} (h : i < xs.length) :
    readSlot (xs ++ ys) i = readSlot xs i := by
  simp [readSlot, List.getD_eq_getElem?_getD, List.getElem?_append_left h]

theorem readSlot_append_right {xs ys : List α} {i : Nat} (h : xs.length ≤ i) :
    readSlot (xs ++ ys) i = readSlot ys (i - xs.length) := by
  simp [readSlot, List.getD_eq_getElem?_getD, List.getElem?_append_right h]

theorem allocSlots_length (n : Nat) : (allocSlots α n).length = n := by
  simp [allocSlots]

theorem readSlot_allocSlots (n i : Nat) :
    readSlot (allocSlots α n) i = default := by
  by_cases h : i < n
  · simp [allocSlots, readSlot, List.getD_eq_getElem?_getD, List.getElem?_replicate, h]
  · exact readSlot_oob (by simpa [allocSlots_length] using Nat.le_of_not_lt h)

theorem readSlots_length (buf : List α) (n : Nat) :
    (readSlots buf n).length = n := length_rangeMap n _

theorem readSlot_readSlots {buf : List α} {n i : Nat} (h : i < n) :
    readSlot (readSlots buf n) i = readSlot buf i :=
  readSlot_rangeMap _ h

theorem readSlots_succ (buf : List α) (n : Nat) :
    readSlots buf (n + 1) = readSlots buf n ++ [readSlot buf n] := by
  simp [readSlots, List.range_succ]

theorem readSlots_congr {buf1 buf2 : List α} {n : Nat}
    (h : ∀ i, i < n → readSlot buf1 i = readSlot buf2 i) :
    readSlots buf1 n = readSlots buf2 n := by
  refine List.map_congr_left ?_
  intro i hi
  exact h i (List.mem_range.mp hi)

theorem readSlots_eq_iff {buf1 buf2 : List α} {n : Nat} :
    readSlots buf1 n = readSlots buf2 n ↔
      ∀ i, i < n → readSlot buf1 i = readSlot buf2 i := by
  constructor
  · intro h i hi
    have := congrArg (fun l => readSlot l i) h
    simpa [readSlot_readSlots hi] using this
  · exact readSlots_congr

theorem readSlots_zero (buf : List α) : readSlots buf 0 = [] := by
  simp [readSlots]

theorem writeSlot_length (buf : List α) (i : Nat) (x : α) :
    (writeSlot buf i x).length = buf.length := length_rangeMap _ _

theorem readSlot_writeSlot_eq {buf : List α} {i : Nat} (x : α)
    (h : i < buf.length) :
    readSlot (writeSlot buf i x) i = x := by
  rw [writeSlot, readSlot_rangeMap _ h]; simp

theorem readSlot_writeSlot_ne {buf : List α} {i j : Nat} (x : α)
    (hj : j < buf.length) (h : j ≠ i) :
    readSlot (writeSlot buf i x) j = readSlot buf j := by
  rw [writeSlot, readSlot_rangeMap _ hj]; simp [h]

theorem fillRange_length (buf : List α) (a b : Nat) (x : α) :
    (fillRange buf a b x).length = buf.length := length_rangeMap _ _

theorem readSlot_fillRange_in {buf : List α} {a b i : Nat} (x : α)
    (hi : i < buf.length) (ha : a ≤ i) (hb : i < b) :
    readSlot (fillRange buf a b x) i = x := by
  rw [fillRange, readSlot_rangeMap _ hi]; simp [ha, hb]

theorem readSlot_fillRange_out {buf : List α} {a b i : Nat} (x : α)
    (hi : i < buf.length) (h : ¬(a ≤ i ∧ i < b)) :
    readSlot (fillRange buf a b x) i = readSlot buf i := by
  rw [fillRange, readSlot_rangeMap _ hi]; simp only [if_neg h]

theorem shiftRightOne_length (buf : List α) (index sz : Nat) :
    (shiftRightOne buf index sz).length = buf.length := length_rangeMap _ _

theorem readSlot_shiftRightOne_in {buf : List α} {index sz i : Nat}
    (hi : i < buf.length) (h1 : index < i) (h2 : i ≤ sz) :
    readSlot (shiftRightOne buf index sz) i = readSlot buf (i - 1) := by
  rw [shiftRightOne, readSlot_rangeMap _ hi]; simp [h1, h2]

theorem readSlot_shiftRightOne_out {buf : List α} {index sz i : Nat}
    (hi : i < buf.length) (h : ¬(index < i ∧ i ≤ sz)) :
    readSlot (shiftRightOne buf index sz) i = readSlot buf i := by
  rw [shiftRightOne, readSlot_rangeMap _ hi]; simp only [if_neg h]

theorem shiftLeftOne_length (buf : List α) (index sz : Nat) :
    (shiftLeftOne buf index sz).length = buf.length := length_rangeMap _ _

theorem readSlot_shiftLeftOne_in {buf : List α} {index sz i : Nat}
    (hi : i < buf.length) (h1 : index ≤ i) (h2 : i + 1 < sz) :
    readSlot (shiftLeftOne buf index sz) i = readSlot buf (i + 1) := by
  rw [shiftLeftOne, readSlot_rangeMap _ hi]; simp [h1, h2]

theorem readSlot_shiftLeftOne_out {buf : List α} {index sz i : Nat}
    (hi : i < buf.length) (h : ¬(index ≤ i ∧ i + 1 < sz)) :
    readSlot (shiftLeftOne buf index sz) i = readSlot buf i := by
  rw [shiftLeftOne, readSlot_rangeMap _ hi]; simp only [if_neg h]

end SlotLemmas

/-! Vector-level lemmas. -/

namespace SimpleVector

variable {α : Type} [Inhabited α]

theorem toList_length (v : SimpleVector α) : v.toList.length = v.size_ :=
  readSlots_length _ _

theorem readSlot_toList {v : SimpleVector α} {i : Nat} (h : i < v.size_) :
    readSlot v.toList i = v.get i := readSlot_readSlots h

/-- The value 1 + capacity never exceeds the doubled-or-one growth target. -/
theorem succ_le_grow (c : Nat) : c + 1 ≤ max (c * 2) 1 := by
  rcases Nat.eq_zero_or_pos c with h | h
  · subst h; simp
  · exact le_trans (by omega) (Nat.le_max_left (c * 2) 1)

theorem PushBack_grow_eq {v : SimpleVector α} (x : α) (h : v.capacity_ ≤ v.size_) :
    v.PushBack x =
      ⟨writeSlot (readSlots v.items_ v.size_ ++
          allocSlots α (max (v.capacity_ * 2) 1 - v.size_)) v.size_ x,
        v.size_ + 1, max (v.capacity_ * 2) 1⟩ := by
  unfold PushBack
  rw [if_pos h]

theorem PushBack_nogrow_eq {v : SimpleVector α} (x : α) (h : v.size_ < v.capacity_) :
    v.PushBack x = ⟨writeSlot v.items_ v.size_ x, v.size_ + 1, v.capacity_⟩ := by
  unfold PushBack
  rw [if_neg (Nat.not_le.mpr h)]

theorem PushBack_size (v : SimpleVector α) (x : α) :
    (v.PushBack x).size_ = v.size_ + 1 := by
  by_cases h : v.capacity_ ≤ v.size_
  · rw [PushBack_grow_eq x h]
  · rw [PushBack_nogrow_eq x (Nat.not_le.mp h)]

theorem WF_PushBack {v : SimpleVector α} (x : α) (hwf : WF v) :
    WF (v.PushBack x) := by
  obtain ⟨hsc, hcb⟩ := hwf
  by_cases h : v.capacity_ ≤ v.size_
  · rw [PushBack_grow_eq x h]
    have hs : v.size_ = v.capacity_ := Nat.le_antisymm hsc h
    have hg := succ_le_grow v.capacity_
    constructor
    · show v.size_ + 1 ≤ max (v.capacity_ * 2) 1
      omega
    · show (writeSlot _ _ _).length = max (v.capacity_ * 2) 1
      rw [writeSlot_length, List.length_append, readSlots_length, allocSlots_length]
      omega
  · have h' := Nat.not_le.mp h
    rw [PushBack_nogrow_eq x h']
    constructor
    · show v.size_ + 1 ≤ v.capacity_
      omega
    · show (writeSlot _ _ _).length = v.capacity_
      rw [writeSlot_length, hcb]

theorem toList_PushBack {v : SimpleVector α} (x : α) (hwf : WF v) :
    (v.PushBack x).toList = v.toList ++ [x] := by
  obtain ⟨hsc, hcb⟩ := hwf
  have hsc' : v.size_ ≤ v.capacity_ := hsc
  have hcb' : v.items_.length = v.capacity_ := hcb
  by_cases h : v.capacity_ ≤ v.size_
  · rw [PushBack_grow_eq x h]
    have hs : v.size_ = v.capacity_ := Nat.le_antisymm hsc h
    have hg := succ_le_grow v.capacity_
    have hlen : (readSlots v.items_ v.size_ ++
        allocSlots α (max (v.capacity_ * 2) 1 - v.size_)).length =
        max (v.capacity_ * 2) 1 := by
      rw [List.length_append, readSlots_length, allocSlots_length]
      omega
    show readSlots _ (v.size_ + 1) = _
    rw [readSlots_succ]
    unfold toList
    congr 1
    · apply readSlots_congr
      intro i hi
      rw [readSlot_writeSlot_ne x (by omega) (by omega),
          readSlot_append_left (by rw [readSlots_length]; exact hi),
          readSlot_readSlots hi]
    · rw [readSlot_writeSlot_eq x (by omega)]
  · have h' := Nat.not_le.mp h
    rw [PushBack_nogrow_eq x h']
    show readSlots _ (v.size_ + 1) = _
    rw [readSlots_succ]
    unfold toList
    congr 1
    · apply readSlots_congr
      intro i hi
      exact readSlot_writeSlot_ne x (by omega) (by omega)
    · rw [readSlot_writeSlot_eq x (by omega)]

theorem WF_empty : WF (empty : SimpleVector α) :=
  ⟨Nat.le_refl 0, rfl⟩

theorem toList_empty : (empty : SimpleVector α).toList = [] :=
  readSlots_zero _

theorem pushMany_cons (v : SimpleVector α) (x : α) (xs : List α) :
    pushMany v (x :: xs) = pushMany (v.PushBack x) xs := rfl

theorem pushMany_spec (xs : List α) :
    ∀ v : SimpleVector α, WF v →
      WF (pushMany v xs) ∧ (pushMany v xs).toList = v.toList ++ xs := by
  induction xs with
  | nil =>
    intro v hwf
    exact ⟨hwf, by simp [pushMany]⟩
  | cons x xs ih =>
    intro v hwf
    rw [pushMany_cons]
    obtain ⟨hwf', htl⟩ := ih (v.PushBack x) (WF_PushBack x hwf)
    refine ⟨hwf', ?_⟩
    rw [htl, toList_PushBack x hwf]
    simp

/-- The doubled-or-one growth target strictly exceeds the capacity. -/
theorem grow_target_gt (c : Nat) : c < max (c * 2) 1 := by
  rcases Nat.eq_zero_or_pos c with h | h
  · subst h; simp
  · exact lt_of_lt_of_le (by omega) (Nat.le_max_left (c * 2) 1)

theorem Reserve_grow_eq {v : SimpleVector α} {nc : Nat} (h : v.capacity_ < nc) :
    v.Reserve nc =
      ⟨readSlots v.items_ v.size_ ++ allocSlots α (nc - v.size_), v.size_, nc⟩ := by
  unfold Reserve
  rw [if_pos h]

theorem Reserve_nogrow_eq {v : SimpleVector α} {nc : Nat} (h : nc ≤ v.capacity_) :
    v.Reserve nc = v := by
  unfold Reserve
  rw [if_neg (Nat.not_lt.mpr h)]

theorem Insert_grow_eq {v : SimpleVector α} {i : Nat} (x : α)
    (h : v.capacity_ ≤ v.size_) :
    v.Insert i x =
      (⟨writeSlot (readSlots v.items_ v.size_ ++
           allocSlots α (max (v.capacity_ * 2) 1 - v.size_)) i x,
         v.size_ + 1, max (v.capacity_ * 2) 1⟩, i) := by
  unfold Insert
  rw [if_pos h, Reserve_grow_eq (grow_target_gt v.capacity_)]

theorem Insert_nogrow_eq {v : SimpleVector α} {i : Nat} (x : α)
    (h : v.size_ < v.capacity_) :
    v.Insert i x =
      (⟨writeSlot (shiftRightOne v.items_ i v.size_) i x,
         v.size_ + 1, v.capacity_⟩, i) := by
  unfold Insert
  rw [if_neg (Nat.not_le.mpr h)]

theorem Resize_shrink_eq {v : SimpleVector α} {n : Nat} (h : n < v.size_) :
    v.Resize n = { v with size_ := n } := by
  unfold Resize
  rw [if_pos h]

theorem Resize_inplace_eq {v : SimpleVector α} {n : Nat}
    (h1 : v.size_ ≤ n) (h2 : n ≤ v.capacity_) :
    v.Resize n =
      { v with items_ := fillRange v.items_ v.size_ n default, size_ := n } := by
  unfold Resize
  rw [if_neg (Nat.not_lt.mpr h1), if_pos h2]

theorem Resize_grow_eq {v : SimpleVector α} {n : Nat}
    (h1 : v.size_ ≤ n) (h2 : v.capacity_ < n) :
    v.Resize n =
      ⟨fillRange (readSlots v.items_ v.size_ ++ allocSlots α (n - v.size_))
         v.size_ n default, n, n⟩ := by
  unfold Resize
  rw [if_neg (Nat.not_lt.mpr h1), if_neg (Nat.not_le.mpr h2)]

theorem Erase_eq (v : SimpleVector α) (i : Nat) :
    v.Erase i =
      (⟨shiftLeftOne v.items_ i v.size_, v.size_ - 1, v.capacity_⟩, i) := rfl

end SimpleVector

/-- A reachable vector over Int with size 1 and capacity 2: push 7,
push 8, pop the 8.  Its buffer holds two slots while only one element is
live, so a copy of it exposes the capacity slip of the copy
constructor. -/
def srcExample : SimpleVector Int :=
  SimpleVector.PopBack
    (SimpleVector.PushBack (SimpleVector.PushBack SimpleVector.empty 7) 8)

/-! The claim theorems. -/

/-- Claim C1: Insert at a valid index is claimed to shift the previous
elements at and after the index one slot rightward, also when the vector
is full and grows first.  The growth path of the source does not shift:
on the full vector with live elements 1, 2 (size = capacity = 2),
Insert at index 0 of the value 5 yields live elements 5, 2, 0 — the
element 1 is overwritten and lost instead of the required 5, 1, 2.  The
returned handle and the size increment do behave as claimed. -/
theorem C1_insert_growth_divergence :
    (SimpleVector.Insert (SimpleVector.ofList [(1 : Int), 2]) 0 5).1.toList =
        [5, 2, 0] ∧
    (SimpleVector.Insert (SimpleVector.ofList [(1 : Int), 2]) 0 5).1.GetSize = 3 ∧
    (SimpleVector.Insert (SimpleVector.ofList [(1 : Int), 2]) 0 5).2 = 0 ∧
    [(5 : Int), 2, 0] ≠ [5, 1, 2] := by decide

/-- Claim C2: copy construction is claimed to yield capacity equal to
the source size.  The source allocates source-size slots but copies the
capacity field of the source: copying srcExample (size 1, capacity 2)
yields a vector whose capacity field is 2, not 1, over a buffer of a
single allocated slot. -/
theorem C2_copy_capacity_divergence :
    srcExample.GetSize = 1 ∧
    srcExample.GetCapacity = 2 ∧
    (SimpleVector.copyCtor srcExample).GetSize = 1 ∧
    (SimpleVector.copyCtor srcExample).toList = srcExample.toList ∧
    (SimpleVector.copyCtor srcExample).items_.length = 1 ∧
    (SimpleVector.copyCtor srcExample).GetCapacity = 2 ∧
    (SimpleVector.copyCtor srcExample).GetCapacity ≠ srcExample.GetSize := by
  decide

/-- Claim C3: the capacity field is claimed to equal the number of
allocated slots after every public operation.  Copy construction breaks
the invariant: the copy of srcExample records capacity 2 over a 1-slot
buffer.  A subsequent PushBack on the copy then takes the no-growth
path and writes outside the allocation: the pushed value 9 is not
retrievable at index 1 (in the C++ source this write is a heap
overflow). -/
theorem C3_copy_breaks_buffer_invariant :
    SimpleVector.CapMatchesBuf srcExample ∧
    ¬ SimpleVector.CapMatchesBuf (SimpleVector.copyCtor srcExample) ∧
    ((SimpleVector.copyCtor srcExample).PushBack 9).GetSize = 2 ∧
    ((SimpleVector.copyCtor srcExample).PushBack 9).get 1 ≠ 9 := by decide

/-- Claim C4: checked access At fails with IndexOutOfRange exactly when
the index is at least the size, and on every valid index it returns the
same value as unchecked access.  At is a pure query: the vector is not
part of the result state. -/
theorem C4_at_checked_access {α : Type} [Inhabited α]
    (v : SimpleVector α) (i : Nat) :
    (v.At i = Except.error VecError.IndexOutOfRange ↔ v.GetSize ≤ i) ∧
    (i < v.GetSize → v.At i = Except.ok (v.get i)) := by
  unfold SimpleVector.At SimpleVector.GetSize SimpleVector.get
  constructor
  · split
    · next h =>
      exact iff_of_true rfl h
    · next h =>
      refine iff_of_false (fun hc => Except.noConfusion hc) h
  · intro h
    rw [if_neg (Nat.not_le.mpr h)]

/-- Witness for C4: on the vector with live elements 3, 4, checked
access at index 1 returns the same value as unchecked access. -/
theorem C4_at_checked_access_witness :
    (SimpleVector.ofList [(3 : Int), 4]).At 1 =
      Except.ok ((SimpleVector.ofList [(3 : Int), 4]).get 1) :=
  (C4_at_checked_access (SimpleVector.ofList [(3 : Int), 4]) 1).2 (by decide)

/-- Claim C7: move construction and move assignment leave the source at
size 0 and capacity 0 and the destination with the original size,
capacity and elements in order; move self-assignment is a no-op. -/
theorem C7_move_semantics {α : Type} [Inhabited α] (v lhs : SimpleVector α) :
    ((SimpleVector.moveCtor v).2.GetSize = 0 ∧
     (SimpleVector.moveCtor v).2.GetCapacity = 0 ∧
     (SimpleVector.moveCtor v).1.GetSize = v.GetSize ∧
     (SimpleVector.moveCtor v).1.GetCapacity = v.GetCapacity ∧
     (SimpleVector.moveCtor v).1.toList = v.toList) ∧
    ((SimpleVector.moveAssign lhs v false).2.GetSize = 0 ∧
     (SimpleVector.moveAssign lhs v false).2.GetCapacity = 0 ∧
     (SimpleVector.moveAssign lhs v false).1.GetSize = v.GetSize ∧
     (SimpleVector.moveAssign lhs v false).1.GetCapacity = v.GetCapacity ∧
     (SimpleVector.moveAssign lhs v false).1.toList = v.toList) ∧
    SimpleVector.moveAssign lhs lhs true = (lhs, lhs) :=
  ⟨⟨rfl, rfl, rfl, rfl, rfl⟩, ⟨rfl, rfl, rfl, rfl, rfl⟩, rfl⟩

/-- Claim C5: PushBack on a full vector grows the capacity to exactly
max(capacity * 2, 1); in every case it places the value at index size,
increments the size, preserves the prior elements, and N pushes from the
empty vector leave size N with the pushed values in push order. -/
theorem C5_pushback_spec {α : Type} [Inhabited α] (v : SimpleVector α) (x : α)
    (hwf : SimpleVector.WF v) :
    (v.GetSize = v.GetCapacity →
      (v.PushBack x).GetCapacity = max (v.GetCapacity * 2) 1) ∧
    (v.PushBack x).GetSize = v.GetSize + 1 ∧
    (v.PushBack x).get v.GetSize = x ∧
    (∀ i, i < v.GetSize → (v.PushBack x).get i = v.get i) ∧
    (∀ xs : List α,
      (SimpleVector.pushMany (SimpleVector.empty : SimpleVector α) xs).GetSize
          = xs.length ∧
      (SimpleVector.pushMany (SimpleVector.empty : SimpleVector α) xs).toList
          = xs) := by
  obtain ⟨hsc, hcb⟩ := hwf
  have hsc' : v.size_ ≤ v.capacity_ := hsc
  have hcb' : v.items_.length = v.capacity_ := hcb
  have htl := SimpleVector.toList_PushBack x ⟨hsc, hcb⟩
  have hsz : (v.PushBack x).size_ = v.size_ + 1 := SimpleVector.PushBack_size v x
  unfold SimpleVector.GetSize SimpleVector.GetCapacity
  refine ⟨?_, hsz, ?_, ?_, ?_⟩
  · intro h
    rw [SimpleVector.PushBack_grow_eq x (le_of_eq h.symm)]
  · rw [← SimpleVector.readSlot_toList (v := v.PushBack x) (i := v.size_)
        (by omega), htl,
      readSlot_append_right (le_of_eq (SimpleVector.toList_length v)),
      SimpleVector.toList_length]
    simp [readSlot]
  · intro i hi
    rw [← SimpleVector.readSlot_toList (v := v.PushBack x) (i := i) (by omega),
      htl, readSlot_append_left (by rw [SimpleVector.toList_length]; exact hi),
      SimpleVector.readSlot_toList hi]
  · intro xs
    obtain ⟨hwfm, htlm⟩ :=
      SimpleVector.pushMany_spec xs SimpleVector.empty SimpleVector.WF_empty
    rw [SimpleVector.toList_empty, List.nil_append] at htlm
    have hlen := SimpleVector.toList_length
      (SimpleVector.pushMany (SimpleVector.empty : SimpleVector α) xs)
    rw [htlm] at hlen
    exact ⟨hlen.symm, htlm⟩

/-- Witness for C5: pushing 7 onto the full vector with live elements
1, 2 doubles the capacity to 4. -/
theorem C5_pushback_spec_witness :
    (SimpleVector.PushBack (SimpleVector.ofList [(1 : Int), 2]) 7).GetCapacity
      = max ((SimpleVector.ofList [(1 : Int), 2]).GetCapacity * 2) 1 :=
  (C5_pushback_spec (SimpleVector.ofList [(1 : Int), 2]) 7 (by decide)).1
    (by decide)

/-- Claim C6: Resize has exactly three behaviours.  Shrinking only
lowers the size and leaves buffer and capacity untouched; growing
within capacity resets the newly exposed slots to the default value in
place; growing past capacity installs a buffer of exactly new_size
slots, preserves the live prefix, default-fills the rest, and sets both
size and capacity to new_size. -/
theorem C6_resize_spec {α : Type} [Inhabited α] (v : SimpleVector α) (n : Nat)
    (hwf : SimpleVector.WF v) :
    (n < v.GetSize →
      (v.Resize n).GetSize = n ∧
      (v.Resize n).GetCapacity = v.GetCapacity ∧
      (v.Resize n).items_ = v.items_ ∧
      ∀ i, i < n → (v.Resize n).get i = v.get i) ∧
    (v.GetSize ≤ n → n ≤ v.GetCapacity →
      (v.Resize n).GetSize = n ∧
      (v.Resize n).GetCapacity = v.GetCapacity ∧
      (∀ i, i < v.GetSize → (v.Resize n).get i = v.get i) ∧
      (∀ i, v.GetSize ≤ i → i < n → (v.Resize n).get i = default)) ∧
    (v.GetCapacity < n →
      (v.Resize n).GetSize = n ∧
      (v.Resize n).GetCapacity = n ∧
      (v.Resize n).items_.length = n ∧
      (∀ i, i < v.GetSize → (v.Resize n).get i = v.get i) ∧
      (∀ i, v.GetSize ≤ i → i < n → (v.Resize n).get i = default)) := by
  obtain ⟨hsc, hcb⟩ := hwf
  have hsc' : v.size_ ≤ v.capacity_ := hsc
  have hcb' : v.items_.length = v.capacity_ := hcb
  unfold SimpleVector.GetSize SimpleVector.GetCapacity
  refine ⟨?_, ?_, ?_⟩
  · intro h
    rw [SimpleVector.Resize_shrink_eq h]
    exact ⟨rfl, rfl, rfl, fun i _ => rfl⟩
  · intro h1 h2
    rw [SimpleVector.Resize_inplace_eq h1 h2]
    refine ⟨rfl, rfl, ?_, ?_⟩
    · intro i hi
      show readSlot (fillRange v.items_ v.size_ n default) i = readSlot v.items_ i
      exact readSlot_fillRange_out default (by omega) (by omega)
    · intro i hi1 hi2
      show readSlot (fillRange v.items_ v.size_ n default) i = default
      exact readSlot_fillRange_in default (by omega) hi1 hi2
  · intro h2
    have h1 : v.size_ ≤ n := by omega
    rw [SimpleVector.Resize_grow_eq h1 h2]
    have hlen : (readSlots v.items_ v.size_ ++ allocSlots α (n - v.size_)).length
        = n := by
      rw [List.length_append, readSlots_length, allocSlots_length]
      omega
    refine ⟨rfl, rfl, ?_, ?_, ?_⟩
    · show (fillRange _ _ _ _).length = n
      rw [fillRange_length, hlen]
    · intro i hi
      show readSlot (fillRange (readSlots v.items_ v.size_ ++
          allocSlots α (n - v.size_)) v.size_ n default) i = readSlot v.items_ i
      rw [readSlot_fillRange_out default (by rw [hlen]; omega) (by omega),
        readSlot_append_left (by rw [readSlots_length]; exact hi),
        readSlot_readSlots hi]
    · intro i hi1 hi2
      show readSlot (fillRange (readSlots v.items_ v.size_ ++
          allocSlots α (n - v.size_)) v.size_ n default) i = default
      exact readSlot_fillRange_in default (by rw [hlen]; omega) hi1 hi2

/-- Witness for C6: shrinking the vector with live elements 1, 2, 3 to
size 2 keeps the capacity at 3. -/
theorem C6_resize_spec_witness :
    (SimpleVector.Resize (SimpleVector.ofList [(1 : Int), 2, 3]) 2).GetSize = 2 ∧
    (SimpleVector.Resize (SimpleVector.ofList [(1 : Int), 2, 3]) 2).GetCapacity
      = (SimpleVector.ofList [(1 : Int), 2, 3]).GetCapacity := by
  have h := (C6_resize_spec (SimpleVector.ofList [(1 : Int), 2, 3]) 2
    (by decide)).1 (by decide)
  exact ⟨h.1, h.2.1⟩

/-- Claim C8: Erase at a live index shifts the later elements one slot
leftward, keeps the earlier elements, decrements the size by one, keeps
the capacity, and returns the erased index (which is the end position
exactly when the erased element was last). -/
theorem C8_erase_spec {α : Type} [Inhabited α] (v : SimpleVector α) (i : Nat)
    (hwf : SimpleVector.WF v) (hi : i < v.GetSize) :
    (v.Erase i).2 = i ∧
    (v.Erase i).1.GetSize = v.GetSize - 1 ∧
    (v.Erase i).1.GetCapacity = v.GetCapacity ∧
    (∀ j, j < i → (v.Erase i).1.get j = v.get j) ∧
    (∀ j, i ≤ j → j + 1 < v.GetSize → (v.Erase i).1.get j = v.get (j + 1)) := by
  obtain ⟨hsc, hcb⟩ := hwf
  have hsc' : v.size_ ≤ v.capacity_ := hsc
  have hcb' : v.items_.length = v.capacity_ := hcb
  have hi' : i < v.size_ := hi
  unfold SimpleVector.GetSize SimpleVector.GetCapacity
  rw [SimpleVector.Erase_eq]
  refine ⟨rfl, rfl, rfl, ?_, ?_⟩
  · intro j hj
    show readSlot (shiftLeftOne v.items_ i v.size_) j = readSlot v.items_ j
    exact readSlot_shiftLeftOne_out (by omega) (by omega)
  · intro j hj1 hj2
    show readSlot (shiftLeftOne v.items_ i v.size_) j = readSlot v.items_ (j + 1)
    exact readSlot_shiftLeftOne_in (by omega) hj1 hj2

/-- Witness for C8: erasing index 1 of the vector with live elements
1, 2, 3 moves the element 3 to index 1. -/
theorem C8_erase_spec_witness :
    (SimpleVector.Erase (SimpleVector.ofList [(1 : Int), 2, 3]) 1).1.get 1 =
      (SimpleVector.ofList [(1 : Int), 2, 3]).get 2 :=
  ((C8_erase_spec (SimpleVector.ofList [(1 : Int), 2, 3]) 1 (by decide)
    (by decide)).2.2.2.2) 1 (by decide) (by decide)

/-- Claim C9: the invariant size ≤ capacity holds after every
constructor variant and is preserved by every public operation, each
taken with its stated preconditions. -/
theorem C9_size_le_capacity (α : Type) [Inhabited α] :
    SimpleVector.SizeLeCap (SimpleVector.empty : SimpleVector α) ∧
    (∀ n : Nat, SimpleVector.SizeLeCap (SimpleVector.ofSize n : SimpleVector α)) ∧
    (∀ (n : Nat) (x : α), SimpleVector.SizeLeCap (SimpleVector.ofSizeValue n x)) ∧
    (∀ l : List α, SimpleVector.SizeLeCap (SimpleVector.ofList l)) ∧
    (∀ n : Nat, SimpleVector.SizeLeCap (SimpleVector.reserveCtor n : SimpleVector α)) ∧
    (∀ v : SimpleVector α, SimpleVector.SizeLeCap v →
      SimpleVector.SizeLeCap (SimpleVector.copyCtor v)) ∧
    (∀ v : SimpleVector α, SimpleVector.SizeLeCap v →
      SimpleVector.SizeLeCap (SimpleVector.moveCtor v).1 ∧
      SimpleVector.SizeLeCap (SimpleVector.moveCtor v).2) ∧
    (∀ (lhs rhs : SimpleVector α) (b : Bool),
      SimpleVector.SizeLeCap lhs → SimpleVector.SizeLeCap rhs →
      SimpleVector.SizeLeCap (SimpleVector.opAssign lhs rhs b)) ∧
    (∀ (lhs rhs : SimpleVector α) (b : Bool),
      SimpleVector.SizeLeCap lhs → SimpleVector.SizeLeCap rhs →
      SimpleVector.SizeLeCap (SimpleVector.moveAssign lhs rhs b).1 ∧
      SimpleVector.SizeLeCap (SimpleVector.moveAssign lhs rhs b).2) ∧
    (∀ (v : SimpleVector α) (x : α), SimpleVector.SizeLeCap v →
      SimpleVector.SizeLeCap (SimpleVector.PushBack v x)) ∧
    (∀ (v : SimpleVector α) (i : Nat) (x : α), SimpleVector.SizeLeCap v →
      SimpleVector.SizeLeCap (SimpleVector.Insert v i x).1) ∧
    (∀ (v : SimpleVector α) (i : Nat), SimpleVector.SizeLeCap v →
      SimpleVector.SizeLeCap (SimpleVector.Erase v i).1) ∧
    (∀ (v : SimpleVector α) (n : Nat), SimpleVector.SizeLeCap v →
      SimpleVector.SizeLeCap (SimpleVector.Resize v n)) ∧
    (∀ (v : SimpleVector α) (n : Nat), SimpleVector.SizeLeCap v →
      SimpleVector.SizeLeCap (SimpleVector.Reserve v n)) ∧
    (∀ v : SimpleVector α, SimpleVector.SizeLeCap v →
      SimpleVector.SizeLeCap (SimpleVector.Clear v)) ∧
    (∀ v : SimpleVector α, SimpleVector.SizeLeCap v →
      SimpleVector.SizeLeCap (SimpleVector.PopBack v)) ∧
    (∀ v w : SimpleVector α,
      SimpleVector.SizeLeCap v → SimpleVector.SizeLeCap w →
      SimpleVector.SizeLeCap (SimpleVector.swap v w).1 ∧
      SimpleVector.SizeLeCap (SimpleVector.swap v w).2) := by
  refine ⟨le_rfl, fun n => le_rfl, fun n x => le_rfl, fun l => le_rfl,
    fun n => Nat.zero_le n, fun v h => h, fun v h => ⟨h, le_rfl⟩,
    ?_, ?_, ?_, ?_, ?_, ?_, ?_,
    fun v _ => Nat.zero_le _, ?_, fun v w h1 h2 => ⟨h2, h1⟩⟩
  · intro lhs rhs b h1 h2
    cases b
    · exact h2
    · exact h1
  · intro lhs rhs b h1 h2
    cases b
    · exact ⟨h2, Nat.zero_le _⟩
    · exact ⟨h1, h2⟩
  · intro v x h
    have h' : v.size_ ≤ v.capacity_ := h
    by_cases hc : v.capacity_ ≤ v.size_
    · rw [SimpleVector.PushBack_grow_eq x hc]
      show v.size_ + 1 ≤ max (v.capacity_ * 2) 1
      have := SimpleVector.succ_le_grow v.capacity_
      omega
    · rw [SimpleVector.PushBack_nogrow_eq x (Nat.not_le.mp hc)]
      show v.size_ + 1 ≤ v.capacity_
      have := Nat.not_le.mp hc
      omega
  · intro v i x h
    have h' : v.size_ ≤ v.capacity_ := h
    by_cases hc : v.capacity_ ≤ v.size_
    · rw [SimpleVector.Insert_grow_eq x hc]
      show v.size_ + 1 ≤ max (v.capacity_ * 2) 1
      have := SimpleVector.succ_le_grow v.capacity_
      omega
    · rw [SimpleVector.Insert_nogrow_eq x (Nat.not_le.mp hc)]
      show v.size_ + 1 ≤ v.capacity_
      have := Nat.not_le.mp hc
      omega
  · intro v i h
    have h' : v.size_ ≤ v.capacity_ := h
    rw [SimpleVector.Erase_eq]
    show v.size_ - 1 ≤ v.capacity_
    omega
  · intro v n h
    have h' : v.size_ ≤ v.capacity_ := h
    by_cases hs : n < v.size_
    · rw [SimpleVector.Resize_shrink_eq hs]
      show n ≤ v.capacity_
      omega
    · by_cases hc : n ≤ v.capacity_
      · rw [SimpleVector.Resize_inplace_eq (Nat.not_lt.mp hs) hc]
        exact hc
      · rw [SimpleVector.Resize_grow_eq (Nat.not_lt.mp hs) (Nat.not_le.mp hc)]
        exact le_rfl
  · intro v n h
    have h' : v.size_ ≤ v.capacity_ := h
    by_cases hc : v.capacity_ < n
    · rw [SimpleVector.Reserve_grow_eq hc]
      show v.size_ ≤ n
      omega
    · rw [SimpleVector.Reserve_nogrow_eq (Nat.not_lt.mp hc)]
      exact h
  · intro v h
    have h' : v.size_ ≤ v.capacity_ := h
    show v.size_ - 1 ≤ v.capacity_
    omega

/-- Witness for C9: the size-capacity invariant after copying a
populated vector. -/
theorem C9_size_le_capacity_witness :
    SimpleVector.SizeLeCap (SimpleVector.copyCtor (SimpleVector.ofList [(1 : Int)])) :=
  (C9_size_le_capacity Int).2.2.2.2.2.1 (SimpleVector.ofList [(1 : Int)])
    (by decide)

theorem bnot_eq_true_iff (b : Bool) : ((!b) = true) ↔ ¬ b = true := by
  cases b <;> simp

theorem eqOp_iff {α : Type} [Inhabited α] [DecidableEq α] (a b : SimpleVector α) :
    SimpleVector.eqOp a b = true ↔
      (a.GetSize = b.GetSize ∧ ∀ i, i < a.GetSize → a.get i = b.get i) := by
  unfold SimpleVector.eqOp
  rw [Bool.and_eq_true, beq_iff_eq, decide_eq_true_eq, readSlots_eq_iff]
  exact Iff.rfl

theorem lexCompare_iff_Lex {α : Type} [LinearOrder α] (as bs : List α) :
    SimpleVector.lexCompare as bs = true ↔ List.Lex (· < ·) as bs := by
  induction as generalizing bs with
  | nil =>
    cases bs with
    | nil =>
      exact iff_of_false (by simp [SimpleVector.lexCompare])
        (List.Lex.not_nil_right _ _)
    | cons b bs =>
      exact iff_of_true rfl List.Lex.nil
  | cons a as ih =>
    cases bs with
    | nil =>
      exact iff_of_false (by simp [SimpleVector.lexCompare])
        (List.Lex.not_nil_right _ _)
    | cons b bs =>
      show (if a < b then true
        else if b < a then false else SimpleVector.lexCompare as bs) = true ↔ _
      by_cases hab : a < b
      · rw [if_pos hab]
        exact iff_of_true rfl (List.Lex.rel hab)
      · rw [if_neg hab]
        by_cases hba : b < a
        · rw [if_pos hba]
          refine iff_of_false (by simp) fun h => ?_
          cases h with
          | rel h1 => exact hab h1
          | cons h1 => exact absurd hba (lt_irrefl _)
        · rw [if_neg hba]
          have hab' : a = b := le_antisymm (le_of_not_lt hba) (le_of_not_lt hab)
          subst hab'
          rw [ih]
          exact (List.Lex.cons_iff).symm

/-- Claim C10: the six relational free functions.  Equality holds
exactly when sizes match and the live elements agree pairwise; the
strict order is lexicographic over the element order (so a proper
prefix precedes its extension); the remaining four are the derived
relations; and the two concrete comparisons of the spec evaluate as
claimed. -/
theorem C10_comparison_ops {α : Type} [Inhabited α] [DecidableEq α]
    [LinearOrder α] (a b : SimpleVector α) :
    (SimpleVector.eqOp a b = true ↔
      a.GetSize = b.GetSize ∧ ∀ i, i < a.GetSize → a.get i = b.get i) ∧
    (SimpleVector.ltOp a b = true ↔ List.Lex (· < ·) a.toList b.toList) ∧
    (SimpleVector.neOp a b = true ↔
      ¬ (a.GetSize = b.GetSize ∧ ∀ i, i < a.GetSize → a.get i = b.get i)) ∧
    (SimpleVector.leOp a b = true ↔ ¬ List.Lex (· < ·) b.toList a.toList) ∧
    (SimpleVector.gtOp a b = true ↔ List.Lex (· < ·) b.toList a.toList) ∧
    (SimpleVector.geOp a b = true ↔ ¬ List.Lex (· < ·) a.toList b.toList) ∧
    SimpleVector.ltOp (SimpleVector.ofList [(1 : Int), 2])
      (SimpleVector.ofList [1, 2, 3]) = true ∧
    SimpleVector.ltOp (SimpleVector.ofList [(1 : Int), 3])
      (SimpleVector.ofList [1, 2, 9]) = false := by
  have hlt : ∀ x y : SimpleVector α,
      (SimpleVector.ltOp x y = true ↔ List.Lex (· < ·) x.toList y.toList) :=
    fun x y => lexCompare_iff_Lex x.toList y.toList
  refine ⟨eqOp_iff a b, hlt a b,
    (bnot_eq_true_iff _).trans (not_congr (eqOp_iff a b)),
    (bnot_eq_true_iff _).trans (not_congr (hlt b a)),
    hlt b a,
    (bnot_eq_true_iff _).trans (not_congr (hlt a b)),
    by decide, by decide⟩

/-- Witness for C10: the container equality on two equal vectors. -/
theorem C10_comparison_ops_witness :
    SimpleVector.eqOp (SimpleVector.ofList [(1 : Int), 2])
      (SimpleVector.ofList [1, 2]) = true :=
  (C10_comparison_ops (SimpleVector.ofList [(1 : Int), 2])
    (SimpleVector.ofList [1, 2])).1.mpr (by decide)
